import Mathlib

/-!
# BasicShell: a shallow embedding of `basic_shell.c`

The shell keeps three globals (`backgroundPIDs`, `fgOnlyMode`, `runningFGPid`),
reads a line, expands `$$`, splits the line on spaces and dispatches to a
builtin (`exit`, `cd`, `status`) or to `runNonStandard` (fork / exec / wait).

Conventions of the embedding:

* a C string is a `String` (or a `List Char` where the code works character by
  character); a `char*` that may be `NULL` is an `Option String`;
* `char* args[MAXARGS]` is a list of slots, `none` being `NULL`;
* `int` values are `Int`; loop counters that only count upwards from `0` are `Nat`;
* every call into the operating system is recorded, in program order, as an
  `Event`; what the operating system answers is a parameter of the function
  that makes the call.
-/

namespace BasicShell

/-! ## Constants -/

def MAXLINE : Nat := 2048
def MAXARGS : Nat := 512
def MAXBG : Nat := 50

/-- Signal numbers and `waitpid` options as found in the platform headers. -/
def SIGINT : Int := 2
def SIGTERM : Int := 15
def SIGTSTP : Int := 20
def WNOHANG : Int := 1

/-! ## Data model -/

/-- The global `struct pidArray`: `pid_t data[MAXBG]; int count;`. -/
structure PidArray where
  data : List Int
  count : Int
  deriving DecidableEq, Repr

/-- The three globals of the program. -/
structure Shell where
  backgroundPIDs : PidArray
  fgOnlyMode : Int
  runningFGPid : Int
  deriving DecidableEq, Repr

/-- One observable action of the process, in program order. -/
inductive Event where
  | stdout (text : String)
  | stderr (text : String)
  | kill (pid : Int) (signo : Int)
  | waitpid (pid : Int) (options : Int)
  | openRead (file : Option String)
  | openWrite (file : Option String)
  | dup2 (fd : Int) (target : Int)
  | chdir (path : Option String)
  | sigIgnore (signo : Int)
  | sigDefault (signo : Int)
  | execvp (file : Option String) (argv : List String)
  | exit (code : Int)
  deriving DecidableEq, Repr

/-- How a piece of code hands control back. -/
inductive Flow where
  | returned
  | exited (code : Int)
  | replaced
  deriving DecidableEq, Repr

/-- The four `<sys/wait.h>` macros the program uses. They come from the platform,
not from the repository, and are a parameter of the functions that use them.
`WIFSIGNALED` is kept as an `Int` because the code compares it with `0`. -/
structure WaitMacros where
  WIFEXITED : Int → Bool
  WEXITSTATUS : Int → Int
  WIFSIGNALED : Int → Int
  WTERMSIG : Int → Int

/-- The usual Linux encoding of a wait status: low seven bits hold the
terminating signal (zero for a normal exit), bits 8 to 15 the exit code. -/
def linuxWait : WaitMacros where
  WIFEXITED s := s % 128 == 0
  WEXITSTATUS s := (s / 256) % 256
  WIFSIGNALED s := if 0 < s % 128 ∧ s % 128 < 127 then 1 else 0
  WTERMSIG s := s % 128

/-- What the operating system answers to the calls the child makes. -/
structure ChildOS where
  openRead : Option String → Int
  openWrite : Option String → Int
  dup2 : Int → Int → Int
  execvpOk : Option String → List String → Bool

/-! ## Argument arrays -/

/-- Read slot `i` of a pointer array. -/
def argAt (args : List (Option String)) (i : Nat) : Option String :=
  args.getD i none

/-- The array `shellDriver` builds: the tokens, the `NULL` terminator, then
whatever the remaining slots of the uninitialised stack array hold. -/
def mkArgs (toks : List String) (rest : List (Option String)) : List (Option String) :=
  toks.map some ++ none :: rest

/-- The argument list as `execvp` reads it: the entries before the first `NULL`. -/
def readArgs : List (Option String) → List String
  | some t :: more => t :: readArgs more
  | _ => []

/-! ## Foreground-only mode -/

/-- The function `printIfSIGINT`: what it prints. -/
def printIfSIGINT (W : WaitMacros) (lastExitStatus : Int) : List Event :=
  if W.WIFSIGNALED lastExitStatus ≠ 0 then
    let termSignal := W.WTERMSIG lastExitStatus
    if termSignal = SIGINT then
      [Event.stdout ("terminated by signal " ++ toString termSignal ++ "\n")]
    else []
  else []

/-- The function `printIfChangeFGMode`, reading the global `fgOnlyMode`. -/
def printIfChangeFGMode (sh : Shell) (startProcFgMode : Int) : List Event :=
  if startProcFgMode ≠ sh.fgOnlyMode then
    if sh.fgOnlyMode = 0 then
      [Event.stdout "Exiting foreground-only mode\n"]
    else
      [Event.stdout "Entering foreground-only mode (& is now ignored)\n"]
  else []

/-- The function `catchSIGTSTP`: the handler writes (only when no foreground child runs) and
flips `fgOnlyMode`; `!x` is `1` for `0` and `0` otherwise. -/
def catchSIGTSTP (sh : Shell) : Shell × List Event :=
  let out :=
    if sh.runningFGPid = -1 then
      if sh.fgOnlyMode ≠ 0 then
        [Event.stdout "Exiting foreground-only mode\n: "]
      else
        [Event.stdout "Entering foreground-only mode (& is now ignored)\n: "]
    else []
  ({ sh with fgOnlyMode := if sh.fgOnlyMode = 0 then 1 else 0 }, out)

/-- Deliver `k` SIGTSTP signals one after the other. -/
def deliverSIGTSTP : Nat → Shell → Shell × List Event
  | 0, sh => (sh, [])
  | k + 1, sh =>
    let r := catchSIGTSTP sh
    let r2 := deliverSIGTSTP k r.1
    (r2.1, r.2 ++ r2.2)

/-! ## Redirection -/

/-- Inner loop of `checkFileRedirection`:
`for(j = i; (j < MAXARGS-2) && (args[j] != NULL); j++) args[j] = args[j+2];`. -/
def shiftArgs (j : Nat) (args : List (Option String)) : List (Option String) :=
  if j < MAXARGS - 2 ∧ argAt args j ≠ none then
    shiftArgs (j + 1) (args.set j (argAt args (j + 2)))
  else args
termination_by MAXARGS - 2 - j
decreasing_by
  simp_wf
  rename_i h
  have := h.1
  omega

/-- Outer loop of `checkFileRedirection`, from index `i` on. The result is the
return value, the value of `*file` and the array. -/
def scanArgs (fileSymbol : String) (i : Nat) (args : List (Option String))
    (file : Option String) : Int × Option String × List (Option String) :=
  if i < MAXARGS ∧ argAt args i ≠ none then
    if argAt args i = some fileSymbol then
      (1, argAt args (i + 1), shiftArgs i args)
    else scanArgs fileSymbol (i + 1) args file
  else (0, file, args)
termination_by MAXARGS - i
decreasing_by
  simp_wf
  rename_i h _
  have := h.1
  omega

/-- The function `checkFileRedirection(args, &file, fileSymbol)`. -/
def checkFileRedirection (args : List (Option String)) (file : Option String)
    (fileSymbol : String) : Int × Option String × List (Option String) :=
  scanArgs fileSymbol 0 args file

/-- The function `performFileRedirection(file, isOutput)`: the events, and whether the call
returned or ended the process. -/
def performFileRedirection (os : ChildOS) (file : Option String) (isOutput : Int) :
    List Event × Flow :=
  let opened :=
    if isOutput ≠ 0 then (os.openWrite file, Event.openWrite file)
    else (os.openRead file, Event.openRead file)
  let FD := opened.1
  if FD = -1 then
    if isOutput ≠ 0 then
      ([opened.2, Event.stderr "ERROR: opening file for output redirection\n", Event.exit 1],
        Flow.exited 1)
    else
      ([opened.2, Event.stderr "ERROR: opening file for input redirection\n", Event.exit 1],
        Flow.exited 1)
  else
    let result := os.dup2 FD isOutput
    if result = -1 then
      ([opened.2, Event.dup2 FD isOutput, Event.stderr "ERROR: dup2\n", Event.exit 1],
        Flow.exited 1)
    else ([opened.2, Event.dup2 FD isOutput], Flow.returned)

/-! ## Running a command that is not built in -/

/-- The function `checkForBackground(args, maxArgs)`: the return value and the array. -/
def checkForBackground (args : List (Option String)) (maxArgs : Int) :
    Int × List (Option String) :=
  if argAt args (maxArgs - 1).toNat = some "&" then
    (1, args.set (maxArgs - 1).toNat none)
  else (0, args)

/-- What a call of `runNonStandard` leaves behind: the globals, the `args`
array and `lastExitStatus` of the caller, the events, and how control was handed back. -/
structure Run where
  shell : Shell
  args : List (Option String)
  lastExitStatus : Int
  trace : List Event
  flow : Flow
  deriving DecidableEq, Repr

/-- The `case 0:` branch of `runNonStandard` (the child after `fork`): the
array as `execvp` sees it, the events, and how the child ends. -/
def runChild (os : ChildOS) (sh : Shell) (args : List (Option String)) (isBackground : Int) :
    List (Option String) × List Event × Flow :=
  let r1 := checkFileRedirection args none "<"
  let p1 :=
    if r1.1 ≠ 0 then performFileRedirection os r1.2.1 0
    else if isBackground ≠ 0 ∧ sh.fgOnlyMode = 0 then
      performFileRedirection os (some "/dev/null") 0
    else ([], Flow.returned)
  if p1.2 ≠ Flow.returned then (r1.2.2, p1.1, p1.2)
  else
    let r2 := checkFileRedirection r1.2.2 none ">"
    let p2 :=
      if r2.1 ≠ 0 then performFileRedirection os r2.2.1 1
      else if isBackground ≠ 0 ∧ sh.fgOnlyMode = 0 then
        performFileRedirection os (some "/dev/null") 1
      else ([], Flow.returned)
    if p2.2 ≠ Flow.returned then (r2.2.2, p1.1 ++ p2.1, p2.2)
    else
      let sigs :=
        Event.sigIgnore SIGTSTP ::
          (if isBackground = 0 ∨ sh.fgOnlyMode ≠ 0 then [Event.sigDefault SIGINT] else [])
      let argv := r2.2.2
      let call := Event.execvp (argAt argv 0) (readArgs argv)
      if os.execvpOk (argAt argv 0) (readArgs argv) then
        (argv, p1.1 ++ p2.1 ++ sigs ++ [call], Flow.replaced)
      else
        (argv, p1.1 ++ p2.1 ++ sigs ++
          [call, Event.stderr "ERROR: Command could not be found on system\n", Event.exit 1],
          Flow.exited 1)

/-- The function `runNonStandard(args, maxArgs, &lastExitStatus)`.

`spawnPid` is what `fork` returns in the process being described, `waitStatus`
the status the blocking `waitpid` stores, and `sigs` the number of SIGTSTP
signals delivered while the parent is blocked in that `waitpid`. The source
does not check `count` against `MAXBG` before the write `data[count]`; the
model keeps that write inside the array. -/
def runNonStandard (W : WaitMacros) (os : ChildOS) (sh : Shell)
    (args : List (Option String)) (maxArgs : Int) (lastExitStatus : Int)
    (spawnPid : Int) (waitStatus : Int) (sigs : Nat) : Run :=
  let bgCheck := checkForBackground args maxArgs
  let isBackground := bgCheck.1
  let args1 := bgCheck.2
  if spawnPid = -1 then
    { shell := sh, args := args1, lastExitStatus := lastExitStatus,
      trace := [Event.stderr "MAJOR FORK ERROR, ABORT ABORT! \n", Event.exit 1],
      flow := Flow.exited 1 }
  else if spawnPid = 0 then
    let c := runChild os sh args1 isBackground
    { shell := sh, args := c.1, lastExitStatus := lastExitStatus,
      trace := c.2.1, flow := c.2.2 }
  else if isBackground ≠ 0 ∧ sh.fgOnlyMode = 0 then
    let bg := sh.backgroundPIDs
    { shell := { sh with backgroundPIDs :=
                  { data := bg.data.set bg.count.toNat spawnPid, count := bg.count + 1 } },
      args := args1, lastExitStatus := lastExitStatus,
      trace := [Event.stdout ("Background pid is " ++ toString spawnPid ++ "\n")],
      flow := Flow.returned }
  else
    let startProcFgMode := sh.fgOnlyMode
    let sh1 := { sh with runningFGPid := spawnPid }
    let during := deliverSIGTSTP sigs sh1
    let sh2 := { during.1 with runningFGPid := -1 }
    { shell := sh2, args := args1, lastExitStatus := waitStatus,
      trace := Event.waitpid spawnPid 0 :: during.2 ++
        printIfSIGINT W waitStatus ++ printIfChangeFGMode sh2 startProcFgMode,
      flow := Flow.returned }

/-! ## Status reports and reaping -/

/-- The function `runStatus(lastExitStatus)`: the text it prints. -/
def runStatus (W : WaitMacros) (lastExitStatus : Int) : String :=
  if lastExitStatus = -1 then
    "No non-standard command has been run, exit status is 0\n"
  else if W.WIFEXITED lastExitStatus then
    let exitStatus := W.WEXITSTATUS lastExitStatus
    "Exit status was " ++ toString exitStatus ++ "\n"
  else if W.WIFSIGNALED lastExitStatus ≠ 0 then
    let termSignal := W.WTERMSIG lastExitStatus
    "terminated by signal " ++ toString termSignal ++ "\n"
  else ""

/-- The function `printBgExitStatus(pid, childExitMethod)`: the text it prints. -/
def printBgExitStatus (W : WaitMacros) (pid : Int) (childExitMethod : Int) : String :=
  "Background pid " ++ toString pid ++ " is done: " ++
    (if W.WIFEXITED childExitMethod then
      let exitStatus := W.WEXITSTATUS childExitMethod
      "Exit status was " ++ toString exitStatus ++ "\n"
    else if W.WIFSIGNALED childExitMethod ≠ 0 then
      let termSignal := W.WTERMSIG childExitMethod
      "terminated by signal " ++ toString termSignal ++ "\n"
    else "")

/-- What `waitpid(pid, &childExitMethod, WNOHANG)` answers: the return value
and the status it stores, if it stores one. -/
structure WaitAnswer where
  ret : Int
  status : Option Int

/-- Read `data[i]`. -/
def pidAt (data : List Int) (i : Int) : Int :=
  data.getD i.toNat 0

/-- The events of one pass through the body of the loop of `reapZombies`, for
the job `pid`: the status check and, when it is non-zero, the report.
`childExitMethod` starts as `-5` and keeps that value when nothing is stored. -/
def reapEvents (W : WaitMacros) (waitpidNoHang : Int → WaitAnswer) (pid : Int) : List Event :=
  let answer := waitpidNoHang pid
  let childExitMethod := answer.status.getD (-5)
  if answer.ret ≠ 0 then
    [Event.waitpid pid WNOHANG, Event.stdout (printBgExitStatus W pid childExitMethod)]
  else [Event.waitpid pid WNOHANG]

/-- The loop of `reapZombies` from index `i` on. `fuel` bounds the number of
passes; `none` means the bound was reached before the loop ended. -/
def reapLoop (W : WaitMacros) (waitpidNoHang : Int → WaitAnswer) :
    Nat → Int → PidArray → Option (PidArray × List Event)
  | 0, _, _ => none
  | fuel + 1, i, bg =>
    if i < bg.count then
      let pid := pidAt bg.data i
      if (waitpidNoHang pid).ret ≠ 0 then
        let data1 := bg.data.set i.toNat (pidAt bg.data (bg.count - 1))
        (reapLoop W waitpidNoHang fuel (i - 1 + 1) { data := data1, count := bg.count - 1 }).map
          fun r => (r.1, reapEvents W waitpidNoHang pid ++ r.2)
      else
        (reapLoop W waitpidNoHang fuel (i + 1) bg).map
          fun r => (r.1, reapEvents W waitpidNoHang pid ++ r.2)
    else some (bg, [])

/-- The function `reapZombies()` on the global `backgroundPIDs`: the array afterwards and the events. -/
def reapZombies (W : WaitMacros) (waitpidNoHang : Int → WaitAnswer) (bg : PidArray) :
    Option (PidArray × List Event) :=
  reapLoop W waitpidNoHang (bg.count.toNat + 1) 0 bg

/-- The jobs the array tracks: `data[0..count)`. -/
def PidArray.tracked (bg : PidArray) : List Int :=
  bg.data.take bg.count.toNat

/-- The events of a list of checks made one after the other. -/
def checkTrace (W : WaitMacros) (waitpidNoHang : Int → WaitAnswer) : List Int → List Event
  | [] => []
  | pid :: more => reapEvents W waitpidNoHang pid ++ checkTrace W waitpidNoHang more

/-- The pids of the `waitpid` calls of a trace, in order. -/
def waitedPids : List Event → List Int
  | [] => []
  | Event.waitpid pid _ :: more => pid :: waitedPids more
  | _ :: more => waitedPids more

/-- The texts written to standard output in a trace, in order. -/
def printed : List Event → List String
  | [] => []
  | Event.stdout text :: more => text :: printed more
  | _ :: more => printed more

/-! ## The `exit` builtin -/

/-- The loop of `runExit` from index `i` on:
`for(i = 0; i < backgroundPIDs.count; i++) { kill(data[i], SIGTERM); waitpid(data[i], &status, 0); }`.
`fuel` bounds the number of passes; `none` means the bound was reached. -/
def runExitLoop (bg : PidArray) : Nat → Int → Option (List Event)
  | 0, _ => none
  | fuel + 1, i =>
    if i < bg.count then
      (runExitLoop bg fuel (i + 1)).map fun more =>
        Event.kill (pidAt bg.data i) SIGTERM :: Event.waitpid (pidAt bg.data i) 0 :: more
    else some []

/-- The function `runExit()`: the events and the return value. -/
def runExit (bg : PidArray) : Option (List Event × Int) :=
  (runExitLoop bg (bg.count.toNat + 1) 0).map fun trace => (trace, 1)

/-- The condition `!quit` of the loop of `shellDriver`. -/
def loopGoesOn (quit : Int) : Bool :=
  quit == 0

/-- The order of calls as the specification words it: a termination signal to
every job, then a blocking wait for each job in set order. -/
def signalAllThenWait (pids : List Int) : List Event :=
  pids.map (fun p => Event.kill p SIGTERM) ++ pids.map (fun p => Event.waitpid p 0)

/-- The order of calls the loop makes: each job is signalled and waited for
before the next job is signalled. -/
def signalAndWaitEach : List Int → List Event
  | [] => []
  | p :: more => Event.kill p SIGTERM :: Event.waitpid p 0 :: signalAndWaitEach more

/-! ## `$$` expansion -/

/-- Whether the string `s` begins with the string `needle`. -/
def startsWith : List Char → List Char → Bool
  | _, [] => true
  | [], _ :: _ => false
  | c :: cs, d :: ds => c == d && startsWith cs ds

/-- The function `strstr(haystack, needle)`: the offset of the first occurrence, `none` for `NULL`. -/
def strstr : List Char → List Char → Option Nat
  | [], needle => if startsWith [] needle then some 0 else none
  | c :: cs, needle =>
    if startsWith (c :: cs) needle then some 0
    else (strstr cs needle).map fun k => k + 1

/-- The contents of `pidStr` after `snprintf(pidStr, 6, "%d", curPid)`: at most
five characters of the decimal representation fit before the terminator. -/
def pidStr (curPid : Int) : List Char :=
  (toString curPid).toList.take 5

/-- The `while` loop of `variableExpandPID`. `line` is the rest of the input
still to search, `expandedLine` the contents of the output buffer. `fuel`
bounds the number of passes; `none` means the bound was reached. -/
def expandLoop (pid : List Char) : Nat → List Char → List Char → Int → Option (List Char)
  | 0, _, _, _ => none
  | fuel + 1, line, expandedLine, subStrFound =>
    match strstr line ['$', '$'] with
    | some k =>
      -- `*startOfSubStr = 0` cuts `line` at the occurrence
      let cut := line.take k
      let copied := if subStrFound = 1 then cut else expandedLine ++ cut
      expandLoop pid fuel (line.drop (k + 2)) (copied ++ pid) (subStrFound + 1)
    | none => some expandedLine

/-- The function `variableExpandPID(line, expandedLine)` for the shell pid `curPid`: the
string in `expandedLine` afterwards. -/
def variableExpandPID (curPid : Int) (line expandedLine : List Char) : Option (List Char) :=
  if (strstr line ['$', '$']).isSome then
    expandLoop (pidStr curPid) (line.length + 1) line expandedLine 1
  else some line

/-- The expansion as the specification words it: every occurrence of `$$`, found
left to right without overlap, becomes `digits`; every other character stays. -/
def replaceEveryDollars (digits : List Char) : List Char → List Char
  | [] => []
  | [c] => [c]
  | c :: d :: rest =>
    if c = '$' ∧ d = '$' then digits ++ replaceEveryDollars digits rest
    else c :: replaceEveryDollars digits (d :: rest)

/-! ## The `cd` builtin -/

/-- What `chdir` does: the directory a path resolves to from the current
directory, `none` when the call fails. A failed `chdir` returns `-1` and leaves
the working directory as it was; a successful one returns `0`. -/
structure DirOS where
  resolve : String → Option String → Option String

/-- The return value of `chdir(path)` and the working directory after the call. -/
def DirOS.chdir (os : DirOS) (cwd : String) (path : Option String) : Int × String :=
  match os.resolve cwd path with
  | some dir => (0, dir)
  | none => (-1, cwd)

/-- The function `runCD(args, maxArgs)`: `home` is what `getenv("HOME")` returns, `cwd` the
working directory before the call. The result is the working directory after
the call and the events. -/
def runCD (os : DirOS) (home : Option String) (cwd : String)
    (args : List (Option String)) (maxArgs : Int) : String × List Event :=
  let cdStatus : Int := 1
  let step : Int × String × List Event :=
    if maxArgs > 2 then
      (cdStatus, cwd, [Event.stdout "ERROR: Too Many Arguments\n"])
    else if argAt args 1 = none then
      ((os.chdir cwd home).1, (os.chdir cwd home).2, [Event.chdir home])
    else
      ((os.chdir cwd (argAt args 1)).1, (os.chdir cwd (argAt args 1)).2,
        [Event.chdir (argAt args 1)])
  if step.1 = -1 then
    (step.2.1, step.2.2 ++
      [Event.stdout "ERROR: Could not find directory, working directory unchanged\n"])
  else (step.2.1, step.2.2)

/-! ## Reading and splitting a line -/

/-- What can go wrong inside the process of the shell itself. -/
inductive Fault where
  /-- A call `strcmp(cmd, ...)` with `cmd == NULL`. -/
  | nullCommand
  /-- A write to `args[argIdx]` with `argIdx` outside the `MAXARGS` slots. -/
  | argsOverflow
  /-- The expanded line does not fit `expandedLine[MAXLINE]`. -/
  | lineOverflow
  /-- The bound on the number of passes of a loop of the model was reached. -/
  | outOfFuel
  deriving DecidableEq, Repr

/-- One pass of the loop of `getInput` over the characters `getline` read
(`numCharsEntered` is their number): `none` when the shell prompts again,
otherwise the line returned, cut at its first newline. -/
def getInput (lineEntered : List Char) : Option (List Char) :=
  let numCharsEntered := lineEntered.length
  if numCharsEntered = 1 ∧ lineEntered = ['\n'] then none
  else if numCharsEntered > MAXLINE then none
  else if lineEntered.head? = some '#' then none
  else some (lineEntered.takeWhile fun c => c != '\n')

/-- The call `strtok` with the delimiter " " on the text at its saved position: `none`
when only delimiters are left, otherwise the token and the next saved position. -/
def strtok (s : List Char) : Option (List Char × List Char) :=
  let start := s.dropWhile fun c => c == ' '
  if start = [] then none
  else some (start.takeWhile fun c => c != ' ', (start.dropWhile fun c => c != ' ').drop 1)

/-- The `while(token != NULL)` loop of `shellDriver`; `saved` is the position
`strtok(NULL, " ")` continues from. -/
def splitLoop : Nat → List Char → List (Option String) → Nat →
    Except Fault (List (Option String) × Nat)
  | 0, _, _, _ => Except.error Fault.outOfFuel
  | fuel + 1, saved, args, argIdx =>
    match strtok saved with
    | none => Except.ok (args, argIdx)
    | some (token, next) =>
      if argIdx < MAXARGS then
        splitLoop fuel next (args.set argIdx (some (String.mk token))) (argIdx + 1)
      else Except.error Fault.argsOverflow

/-- The function `shellDriver` hands the command to. -/
inductive Dispatch where
  | runExit
  | runCD
  | runStatus
  | runNonStandard
  deriving DecidableEq, Repr

/-- What one pass of the loop of `shellDriver` has built when it dispatches. -/
structure Parsed where
  cmd : String
  args : List (Option String)
  argIdx : Nat
  target : Dispatch
  deriving DecidableEq, Repr

/-- One pass of the loop of `shellDriver`, from the line `getInput` returned to
the choice of the function to call. `stack` is what the slots of the
uninitialised array `args` hold. -/
def shellDriverPass (curPid : Int) (stack : List (Option String)) (line : List Char) :
    Except Fault Parsed :=
  match variableExpandPID curPid line [] with
  | none => Except.error Fault.outOfFuel
  | some expandedLine =>
    if MAXLINE ≤ expandedLine.length then Except.error Fault.lineOverflow
    else
      let first := strtok expandedLine
      let cmd := first.map fun r => String.mk r.1
      let saved := match first with
        | some r => r.2
        | none => []
      match splitLoop (expandedLine.length + 1) saved (stack.set 0 cmd) 1 with
      | Except.error f => Except.error f
      | Except.ok (args, argIdx) =>
        if MAXARGS ≤ argIdx then Except.error Fault.argsOverflow
        else
          match cmd with
          | none => Except.error Fault.nullCommand
          | some word =>
            Except.ok
              { cmd := word, args := args.set argIdx none, argIdx := argIdx,
                target :=
                  if word = "exit" then Dispatch.runExit
                  else if word = "cd" then Dispatch.runCD
                  else if word = "status" then Dispatch.runStatus
                  else Dispatch.runNonStandard }

/-- A line of `k + 1` one-letter words separated by single spaces. -/
def spacedWords : Nat → List Char
  | 0 => ['a']
  | k + 1 => 'a' :: ' ' :: spacedWords k

/-! ## What redirection resolving should yield -/

/-- A redirection symbol. -/
def isRedir (t : String) : Bool :=
  t == "<" || t == ">"

/-- Every redirection symbol of the list is immediately followed by a token,
and that token is not a redirection symbol. -/
def followedByFile : List String → Bool
  | [] => true
  | [t] => !isRedir t
  | t :: f :: more => (!isRedir t || !isRedir f) && followedByFile (f :: more)

/-- The list with every redirection symbol and the token after it removed, the
other tokens in their order. -/
def stripRedir : List String → List String
  | [] => []
  | [t] => if isRedir t then [] else [t]
  | t :: f :: more => if isRedir t then stripRedir more else t :: stripRedir (f :: more)

/-- The token after the first occurrence of `sym`, if there is one. -/
def fileAfter (sym : String) : List String → Option String
  | [] => none
  | t :: more => if t = sym then more.head? else fileAfter sym more

/-- The mode-change line as the specification words it, for the value `m` that
`fgOnlyMode` had before the change: entering when the mode was off, exiting
when it was on. -/
def modeChangeLine (m : Int) : String :=
  if m = 0 then "Entering foreground-only mode (& is now ignored)\n"
  else "Exiting foreground-only mode\n"

/-! ## Facts about argument arrays -/

theorem readArgs_mkArgs (toks : List String) (rest : List (Option String)) :
    readArgs (mkArgs toks rest) = toks := by
  induction toks with
  | nil => simp [mkArgs, readArgs]
  | cons t ts ih =>
    simpa [mkArgs, readArgs] using ih

theorem mkArgs_concat (init : List String) (t : String) (rest : List (Option String)) :
    mkArgs (init ++ [t]) rest = init.map some ++ some t :: none :: rest := by
  simp [mkArgs]

theorem argAt_append_length (pre : List (Option String)) (x : Option String)
    (post : List (Option String)) : argAt (pre ++ x :: post) pre.length = x := by
  induction pre with
  | nil => simp [argAt]
  | cons a as ih => simpa [argAt] using ih

theorem set_append_length (pre : List (Option String)) (x y : Option String)
    (post : List (Option String)) :
    (pre ++ x :: post).set pre.length y = pre ++ y :: post := by
  simp

/-! ## C1 -/

/-- C1: in foreground-only mode a command whose last token is "&" is run in the
foreground. The only OS call of the parent is a blocking `waitpid` on the new child
(followed by the SIGINT report, if any), the call returns, `backgroundPIDs`
and `fgOnlyMode` are what they were, and the "&" slot of the argument array has
been overwritten with `NULL`, so the list reads as the tokens without the "&". -/
theorem fg_only_mode_ignores_ampersand (W : WaitMacros) (os : ChildOS) (sh : Shell)
    (toks : List String) (rest : List (Option String)) (lastExitStatus : Int)
    (spawnPid waitStatus : Int)
    (hmode : sh.fgOnlyMode ≠ 0) (hlast : toks.getLast? = some "&") (hpid : 0 < spawnPid) :
    (runNonStandard W os sh (mkArgs toks rest) toks.length lastExitStatus
        spawnPid waitStatus 0).flow = Flow.returned ∧
    (runNonStandard W os sh (mkArgs toks rest) toks.length lastExitStatus
        spawnPid waitStatus 0).trace
      = Event.waitpid spawnPid 0 :: printIfSIGINT W waitStatus ∧
    (runNonStandard W os sh (mkArgs toks rest) toks.length lastExitStatus
        spawnPid waitStatus 0).shell.backgroundPIDs = sh.backgroundPIDs ∧
    (runNonStandard W os sh (mkArgs toks rest) toks.length lastExitStatus
        spawnPid waitStatus 0).shell.fgOnlyMode = sh.fgOnlyMode ∧
    (runNonStandard W os sh (mkArgs toks rest) toks.length lastExitStatus
        spawnPid waitStatus 0).args = mkArgs toks.dropLast (none :: rest) ∧
    readArgs (runNonStandard W os sh (mkArgs toks rest) toks.length lastExitStatus
        spawnPid waitStatus 0).args = toks.dropLast := by
  obtain ⟨init, rfl⟩ : ∃ init, toks = init ++ ["&"] := by
    rcases List.eq_nil_or_concat toks with h | ⟨init, t, h⟩
    · simp [h] at hlast
    · subst h
      simp at hlast
      exact ⟨init, by simp [hlast]⟩
  have hidx : (((init ++ ["&"]).length : Int) - 1).toNat = (init.map some).length := by
    simp
  have hbg : checkForBackground (mkArgs (init ++ ["&"]) rest) ((init ++ ["&"]).length : Nat)
      = (1, mkArgs init (none :: rest)) := by
    unfold checkForBackground
    rw [hidx, mkArgs_concat, argAt_append_length, set_append_length]
    simp [mkArgs]
  have h1 : spawnPid ≠ -1 := by omega
  have h0 : spawnPid ≠ 0 := by omega
  have hargs : (runNonStandard W os sh (mkArgs (init ++ ["&"]) rest)
      ((init ++ ["&"]).length : Nat) lastExitStatus spawnPid waitStatus 0).args
      = mkArgs init (none :: rest) := by
    simp only [runNonStandard, hbg]
    simp [h1, h0, hmode]
  refine ⟨?_, ?_, ?_, ?_, ?_, ?_⟩
  · simp only [runNonStandard, hbg]
    simp [h1, h0, hmode]
  · simp only [runNonStandard, hbg]
    simp [h1, h0, hmode, deliverSIGTSTP, printIfChangeFGMode]
  · simp only [runNonStandard, hbg]
    simp [h1, h0, hmode, deliverSIGTSTP]
  · simp only [runNonStandard, hbg]
    simp [h1, h0, hmode, deliverSIGTSTP]
  · simpa using hargs
  · rw [hargs, readArgs_mkArgs]
    simp

/-- C1 at a concrete command: `sleep 5 &` in foreground-only mode. -/
theorem fg_only_mode_ignores_ampersand_witness :
    (runNonStandard linuxWait ⟨fun _ => 3, fun _ => 4, fun _ _ => 0, fun _ _ => true⟩
        ⟨⟨List.replicate 50 0, 0⟩, 1, -1⟩
        (mkArgs ["sleep", "5", "&"] []) (["sleep", "5", "&"].length : Nat) (-1)
        1234 0 0).shell.backgroundPIDs = ⟨List.replicate 50 0, 0⟩ :=
  (fg_only_mode_ignores_ampersand linuxWait ⟨fun _ => 3, fun _ => 4, fun _ _ => 0, fun _ _ => true⟩
    ⟨⟨List.replicate 50 0, 0⟩, 1, -1⟩ ["sleep", "5", "&"] [] (-1) 1234 0
    (by decide) (by decide) (by decide)).2.2.1

/-! ## C2 -/

theorem pidAt_append_length (pre : List Int) (x : Int) (post : List Int) (i : Int)
    (hi : i = pre.length) : pidAt (pre ++ x :: post) i = x := by
  subst hi
  induction pre with
  | nil => simp [pidAt]
  | cons a as ih => simpa [pidAt] using ih

/-- The loop of `reapZombies`, with the array split into the slots already
passed (`A`), the slots still to visit (`B`) and the slots beyond `count` (`G`). -/
theorem reapLoop_split (W : WaitMacros) (wp : Int → WaitAnswer) :
    ∀ (fuel : Nat) (A B G : List Int) (i c : Int),
      i = A.length → c = A.length + B.length → B.length < fuel →
      ∃ B1 G1 checks,
        reapLoop W wp fuel i { data := A ++ B ++ G, count := c }
          = some ({ data := A ++ B1 ++ G1, count := A.length + B1.length },
              checkTrace W wp checks) ∧
        checks.Perm B ∧ B1.Perm (B.filter fun p => (wp p).ret = 0) ∧
        (A ++ B1 ++ G1).length = (A ++ B ++ G).length := by
  intro fuel
  induction fuel with
  | zero => intro A B G i c _ _ h; omega
  | succ fuel ih =>
    intro A B G i c hi hc hfuel
    cases B with
    | nil =>
      refine ⟨[], G, [], ?_, List.Perm.refl _, by simp, rfl⟩
      have : ¬ i < c := by simp at hc; omega
      rw [reapLoop, if_neg this]
      simp [checkTrace, hc]
    | cons p B =>
      have hlt : i < c := by simp at hc; omega
      have hp : pidAt (A ++ (p :: B) ++ G) i = p := by
        rw [List.append_assoc, List.cons_append]
        exact pidAt_append_length A p (B ++ G) i hi
      by_cases hfin : (wp p).ret = 0
      · -- still running: move on to the next slot
        obtain ⟨B1, G1, checks, hrun, hperm, hkeep, hlen⟩ :=
          ih (A ++ [p]) B G (i + 1) c (by simp [hi]) (by simp [hc]; omega)
            (by simp at hfuel; omega)
        refine ⟨p :: B1, G1, p :: checks, ?_, hperm.cons p, ?_, ?_⟩
        · have hdata : A ++ (p :: B) ++ G = A ++ [p] ++ B ++ G := by simp
          simp only [reapLoop, hlt, if_true, hp, hfin, ne_eq, not_true_eq_false, if_false]
          rw [hdata, hrun]
          simp [checkTrace]
          omega
        · simpa [List.filter_cons, hfin] using hkeep
        · simpa using hlen
      · -- finished: overwrite the slot with the last tracked entry
        rcases List.eq_nil_or_concat B with hB | ⟨B2, q, hB⟩
        · subst hB
          have hlast : pidAt (A ++ [p] ++ G) (c - 1) = p := by
            rw [List.append_assoc, List.cons_append]
            exact pidAt_append_length A p ([] ++ G) (c - 1) (by simp [hc])
          have hset : (A ++ [p] ++ G).set i.toNat p = A ++ [] ++ p :: G := by
            subst hi
            simp
          obtain ⟨B1, G1, checks, hrun, hperm, hkeep, hlen⟩ :=
            ih A [] (p :: G) i (c - 1) hi (by simp [hc]) (by simp at hfuel ⊢; omega)
          refine ⟨B1, G1, p :: checks, ?_, ?_, ?_, ?_⟩
          · simp only [reapLoop, hlt, if_true, hp, hfin, ne_eq, not_false_eq_true, hlast,
              hset, sub_add_cancel]
            rw [hrun]
            simp [checkTrace]
          · exact hperm.cons p
          · simpa [List.filter_cons, hfin] using hkeep
          · simpa using hlen
        · rw [List.concat_eq_append] at hB
          subst hB
          have hlast : pidAt (A ++ (p :: (B2 ++ [q])) ++ G) (c - 1) = q := by
            have : A ++ (p :: (B2 ++ [q])) ++ G = (A ++ p :: B2) ++ q :: G := by simp
            rw [this]
            exact pidAt_append_length (A ++ p :: B2) q G (c - 1) (by simp [hc]; omega)
          have hset : (A ++ (p :: (B2 ++ [q])) ++ G).set i.toNat q
              = A ++ (q :: B2) ++ q :: G := by
            subst hi
            simp
          obtain ⟨B1, G1, checks, hrun, hperm, hkeep, hlen⟩ :=
            ih A (q :: B2) (q :: G) i (c - 1) hi (by simp [hc]; omega)
              (by simp at hfuel ⊢; omega)
          refine ⟨B1, G1, p :: checks, ?_, ?_, ?_, ?_⟩
          · simp only [reapLoop, hlt, if_true, hp, hfin, ne_eq, not_false_eq_true, hlast,
              hset, sub_add_cancel]
            rw [hrun]
            simp [checkTrace]
          · refine (hperm.trans ?_).cons p
            exact (List.perm_append_singleton q B2).symm
          · refine hkeep.trans ?_
            have hmove : (q :: B2).Perm (B2 ++ [q]) := (List.perm_append_singleton q B2).symm
            have hdrop : List.filter (fun p => decide ((wp p).ret = 0)) (p :: (B2 ++ [q]))
                = List.filter (fun p => decide ((wp p).ret = 0)) (B2 ++ [q]) := by
              simp [List.filter_cons, hfin]
            rw [hdrop]
            exact hmove.filter _
          · simpa using hlen

theorem waitedPids_checkTrace (W : WaitMacros) (wp : Int → WaitAnswer) (checks : List Int) :
    waitedPids (checkTrace W wp checks) = checks := by
  induction checks with
  | nil => rfl
  | cons p ps ih =>
    by_cases h : (wp p).ret = 0 <;> simp [checkTrace, reapEvents, h, waitedPids, ih]

theorem printed_checkTrace (W : WaitMacros) (wp : Int → WaitAnswer) (checks : List Int) :
    printed (checkTrace W wp checks)
      = (checks.filter fun p => (wp p).ret ≠ 0).map
          fun p => printBgExitStatus W p ((wp p).status.getD (-5)) := by
  induction checks with
  | nil => rfl
  | cons p ps ih =>
    by_cases h : (wp p).ret = 0 <;> simp [checkTrace, reapEvents, h, printed, ih]

/-- C2: with the non-blocking `waitpid` a fixed function of the pid, `reapZombies`
on an array of `MAXBG` slots with `0 ≤ count ≤ MAXBG` ends, and there is an order
`checks` of the tracked pids (a permutation of `data[0..count)`, so each tracked
entry is checked exactly once) such that the events are exactly those checks,
each check with a non-zero answer followed by its one
"Background pid <pid> is done: ..." report and the others by none; afterwards
`data[0..count)` is a permutation of the tracked pids whose check answered `0`
and `count` is their number. -/
theorem reapZombies_keeps_unfinished (W : WaitMacros) (wp : Int → WaitAnswer) (bg : PidArray)
    (hlen : bg.data.length = MAXBG) (h0 : 0 ≤ bg.count) (hmax : bg.count ≤ MAXBG) :
    ∃ bg1 checks,
      reapZombies W wp bg = some (bg1, checkTrace W wp checks) ∧
      checks.Perm bg.tracked ∧
      waitedPids (checkTrace W wp checks) = checks ∧
      printed (checkTrace W wp checks)
        = (checks.filter fun p => (wp p).ret ≠ 0).map
            (fun p => printBgExitStatus W p ((wp p).status.getD (-5))) ∧
      bg1.tracked.Perm (bg.tracked.filter fun p => (wp p).ret = 0) ∧
      bg1.count = ((bg.tracked.filter fun p => (wp p).ret = 0).length : Nat) ∧
      bg1.data.length = MAXBG := by
  obtain ⟨data, count⟩ := bg
  simp only at hlen h0 hmax
  obtain ⟨n, rfl⟩ : ∃ n : Nat, count = n := ⟨count.toNat, by omega⟩
  have hn : n ≤ data.length := by rw [hlen]; exact_mod_cast hmax
  have htake : (data.take n).length = n := by simp [hn]
  obtain ⟨B1, G1, checks, hrun, hperm, hkeep, hlen1⟩ :=
    reapLoop_split W wp (n + 1) [] (data.take n) (data.drop n) 0 n (by simp)
      (by simp [hn]) (by omega)
  simp only [List.nil_append, List.take_append_drop, List.length_nil, Nat.cast_zero,
    zero_add] at hrun hlen1
  refine ⟨{ data := B1 ++ G1, count := B1.length }, checks, ?_, ?_,
    waitedPids_checkTrace W wp checks,
    printed_checkTrace W wp checks, ?_, ?_, ?_⟩
  · simpa [reapZombies] using hrun
  · simpa [PidArray.tracked] using hperm
  · simpa [PidArray.tracked] using hkeep
  · simp only [PidArray.tracked, Int.toNat_ofNat]
    exact_mod_cast hkeep.length_eq
  · simpa [hlen] using hlen1

/-- C2 at a concrete array: three tracked jobs, the second of which has finished. -/
theorem reapZombies_keeps_unfinished_witness :
    ∃ bg1 checks,
      reapZombies linuxWait (fun p => if p = 12 then ⟨12, some 0⟩ else ⟨0, none⟩)
          ⟨[11, 12, 13] ++ List.replicate 47 0, 3⟩
        = some (bg1, checkTrace linuxWait
            (fun p => if p = 12 then ⟨12, some 0⟩ else ⟨0, none⟩) checks) ∧
      checks.Perm [11, 12, 13] ∧ bg1.count = 2 := by
  obtain ⟨bg1, checks, hrun, hperm, _, _, _, hcount, _⟩ :=
    reapZombies_keeps_unfinished linuxWait
      (fun p => if p = 12 then ⟨12, some 0⟩ else ⟨0, none⟩)
      ⟨[11, 12, 13] ++ List.replicate 47 0, 3⟩ (by decide) (by decide) (by decide)
  exact ⟨bg1, checks, hrun, hperm, hcount⟩

/-! ## C3 -/

theorem runExitLoop_split (fuel : Nat) :
    ∀ (A B G : List Int) (i c : Int),
      i = A.length → c = A.length + B.length → B.length < fuel →
      runExitLoop { data := A ++ B ++ G, count := c } fuel i = some (signalAndWaitEach B) := by
  induction fuel with
  | zero => intro A B G i c _ _ h; omega
  | succ fuel ih =>
    intro A B G i c hi hc hfuel
    cases B with
    | nil =>
      have : ¬ i < c := by simp at hc; omega
      simp [runExitLoop, this, signalAndWaitEach]
    | cons p B =>
      have hlt : i < c := by simp at hc; omega
      have hp : pidAt (A ++ (p :: B) ++ G) i = p := by
        rw [List.append_assoc, List.cons_append]
        exact pidAt_append_length A p (B ++ G) i hi
      have hnext := ih (A ++ [p]) B G (i + 1) c (by simp [hi]) (by simp [hc]; omega)
        (by simp at hfuel; omega)
      have hdata : A ++ (p :: B) ++ G = A ++ [p] ++ B ++ G := by simp
      simp only [runExitLoop, hlt, if_true, hp]
      rw [hdata, hnext]
      simp [signalAndWaitEach]

/-- C3, at two running jobs 10 and 20: the calls of `runExit` are not "signal
both, then wait for each"; job 20 is signalled only after the wait for job 10. -/
theorem runExit_two_jobs_not_signalled_first :
    runExit ⟨[10, 20] ++ List.replicate 48 0, 2⟩
        ≠ some (signalAllThenWait [10, 20], 1) ∧
    runExit ⟨[10, 20] ++ List.replicate 48 0, 2⟩
        = some ([Event.kill 10 SIGTERM, Event.waitpid 10 0,
                 Event.kill 20 SIGTERM, Event.waitpid 20 0], 1) := by
  decide

/-- C3, amended: `runExit` ends, and its calls are, for each tracked job in set
order, `kill(pid, SIGTERM)` immediately followed by the blocking `waitpid(pid)`
(so every job is signalled and waited for, each wait before the next signal);
it returns `1`, for which the loop condition of `shellDriver` is false. -/
theorem runExit_signals_and_waits_each (bg : PidArray)
    (h0 : 0 ≤ bg.count) (hmax : bg.count ≤ bg.data.length) :
    runExit bg = some (signalAndWaitEach bg.tracked, 1) ∧ loopGoesOn 1 = false := by
  obtain ⟨data, count⟩ := bg
  simp only at h0 hmax
  obtain ⟨n, rfl⟩ : ∃ n : Nat, count = n := ⟨count.toNat, by omega⟩
  have hn : n ≤ data.length := by exact_mod_cast hmax
  have hrun := runExitLoop_split (n + 1) [] (data.take n) (data.drop n) 0 n (by simp)
    (by simp [hn]) (by simp)
  simp only [List.nil_append, List.take_append_drop] at hrun
  refine ⟨?_, by decide⟩
  simp [runExit, hrun, PidArray.tracked]

/-- C3 amended, at three tracked jobs. -/
theorem runExit_signals_and_waits_each_witness :
    runExit ⟨[7, 8, 9] ++ List.replicate 47 0, 3⟩
      = some (signalAndWaitEach (PidArray.tracked ⟨[7, 8, 9] ++ List.replicate 47 0, 3⟩), 1) :=
  (runExit_signals_and_waits_each ⟨[7, 8, 9] ++ List.replicate 47 0, 3⟩
    (by decide) (by decide)).1

/-! ## C4 and C5 -/

/-- C4, at the line `echo $$ x` and pid 123: the text after the last `$$` is
lost. `variableExpandPID` leaves "echo 123" in `expandedLine`, where replacing
every `$$` and keeping every other character gives "echo 123 x". -/
theorem variableExpandPID_drops_text_after_last :
    variableExpandPID 123 "echo $$ x".toList [] = some "echo 123".toList ∧
    replaceEveryDollars (toString (123 : Int)).toList "echo $$ x".toList
      = "echo 123 x".toList := by
  decide

/-- C5, at pid 100000: `echo $$ $$` becomes "echo 10000 10000"; only the first
five digits of the pid fit `pidStr`. -/
theorem variableExpandPID_truncates_six_digit_pid :
    variableExpandPID 100000 "echo $$ $$".toList [] = some "echo 10000 10000".toList ∧
    (toString (100000 : Int)).toList = "100000".toList := by
  decide

/-! ## C6 -/

theorem shiftArgs_stop (pre : List (Option String)) (more : List (Option String)) :
    shiftArgs pre.length (pre ++ none :: more) = pre ++ none :: more := by
  rw [shiftArgs, argAt_append_length]
  simp

theorem shiftArgs_step (pre : List (Option String)) (a : String) (y z : Option String)
    (more : List (Option String)) (h : pre.length < MAXARGS - 2) :
    shiftArgs pre.length (pre ++ some a :: y :: z :: more)
      = shiftArgs (pre.length + 1) (pre ++ z :: y :: z :: more) := by
  have hz : argAt (pre ++ some a :: y :: z :: more) (pre.length + 2) = z := by
    have := argAt_append_length (pre ++ [some a, y]) z more
    simpa using this
  rw [shiftArgs, argAt_append_length, hz, set_append_length]
  simp [h]

theorem shiftArgs_tokens (us : List String) :
    ∀ (pre : List (Option String)) (a b : String) (g : Option String)
      (tail : List (Option String)),
      pre.length + us.length + 2 ≤ MAXARGS - 2 →
      shiftArgs pre.length (pre ++ some a :: some b :: (us.map some ++ none :: g :: tail))
        = pre ++ (us.map some ++ none :: g :: none :: g :: tail) := by
  induction us with
  | nil =>
    intro pre a b g tail h
    simp only [List.map_nil, List.nil_append]
    rw [shiftArgs_step pre a (some b) none (g :: tail) (by simp at h; omega)]
    have h2 := shiftArgs_step (pre ++ [none]) b none g tail (by simp at h ⊢; omega)
    simp only [List.append_assoc, List.singleton_append, List.length_append,
      List.length_singleton] at h2
    rw [h2]
    have h3 := shiftArgs_stop (pre ++ [none, g]) (g :: tail)
    simpa using h3
  | cons u us ih =>
    intro pre a b g tail h
    simp only [List.map_cons, List.cons_append]
    rw [shiftArgs_step pre a (some b) (some u) _ (by simp at h; omega)]
    have h2 := ih (pre ++ [some u]) b u g tail (by simp at h ⊢; omega)
    simpa using h2

theorem scanArgs_found (fileSymbol : String) (file : Option String) (us : List String) :
    ∀ (pre : List (Option String)) (post : List (Option String)),
      fileSymbol ∉ us → pre.length + us.length < MAXARGS →
      scanArgs fileSymbol pre.length (pre ++ (us.map some ++ some fileSymbol :: post)) file
        = (1, argAt (pre ++ (us.map some ++ some fileSymbol :: post))
                (pre.length + us.length + 1),
            shiftArgs (pre.length + us.length)
              (pre ++ (us.map some ++ some fileSymbol :: post))) := by
  induction us with
  | nil =>
    intro pre post _ h
    simp only [List.map_nil, List.nil_append, List.length_nil, Nat.add_zero]
    rw [scanArgs, argAt_append_length]
    simp at h
    simp [h]
  | cons u us ih =>
    intro pre post hmem h
    have hu : u ≠ fileSymbol := fun e => hmem (by simp [e])
    have hrest : fileSymbol ∉ us := fun e => hmem (by simp [e])
    simp only [List.map_cons, List.cons_append]
    rw [scanArgs, argAt_append_length]
    have hlt : pre.length < MAXARGS := by simp at h; omega
    have h2 := ih (pre ++ [some u]) post hrest (by simp at h ⊢; omega)
    simp only [List.append_assoc, List.singleton_append, List.length_append,
      List.length_singleton] at h2
    simp only [hlt, ne_eq, reduceCtorEq, not_false_eq_true, and_self, if_true,
      Option.some.injEq, hu, if_false]
    rw [h2]
    simp [Nat.add_assoc, Nat.add_comm 1]

theorem scanArgs_absent (fileSymbol : String) (file : Option String) (us : List String) :
    ∀ (pre : List (Option String)) (post : List (Option String)),
      fileSymbol ∉ us →
      scanArgs fileSymbol pre.length (pre ++ (us.map some ++ none :: post)) file
        = (0, file, pre ++ (us.map some ++ none :: post)) := by
  induction us with
  | nil =>
    intro pre post _
    simp only [List.map_nil, List.nil_append]
    rw [scanArgs, argAt_append_length]
    simp
  | cons u us ih =>
    intro pre post hmem
    have hu : u ≠ fileSymbol := fun e => hmem (by simp [e])
    have hrest : fileSymbol ∉ us := fun e => hmem (by simp [e])
    simp only [List.map_cons, List.cons_append]
    rw [scanArgs, argAt_append_length]
    have h2 := ih (pre ++ [some u]) post hrest
    simp only [List.append_assoc, List.singleton_append, List.length_append,
      List.length_singleton] at h2
    by_cases hlt : pre.length < MAXARGS
    · simp only [hlt, ne_eq, reduceCtorEq, not_false_eq_true, and_self, if_true,
        Option.some.injEq, hu, if_false]
      rw [h2]
    · simp [hlt]

/-- One call of `checkFileRedirection` when the symbol is present and followed
by a token: the call returns `1`, stores the token, and the array holds the
other tokens, terminated, with the two vacated slots refilled from beyond. -/
theorem checkFileRedirection_found (sym f : String) (file : Option String)
    (pre post : List String) (g : Option String) (tail : List (Option String))
    (hpre : sym ∉ pre) (hlen : pre.length + post.length + 2 ≤ MAXARGS - 2) :
    checkFileRedirection (mkArgs (pre ++ sym :: f :: post) (g :: tail)) file sym
      = (1, some f, mkArgs (pre ++ post) (g :: none :: g :: tail)) := by
  have hshape : mkArgs (pre ++ sym :: f :: post) (g :: tail)
      = [] ++ (pre.map some ++ some sym :: (some f :: (post.map some ++ none :: g :: tail))) := by
    simp [mkArgs]
  have hscan := scanArgs_found sym file pre [] (some f :: (post.map some ++ none :: g :: tail))
    hpre (by simp [MAXARGS] at hlen ⊢; omega)
  rw [checkFileRedirection, hshape]
  simp only [List.length_nil, Nat.zero_add] at hscan
  rw [hscan]
  have hfile : argAt ([] ++ (pre.map some ++ some sym :: (some f ::
      (post.map some ++ none :: g :: tail)))) (pre.length + 1) = some f := by
    have := argAt_append_length (pre.map some ++ [some sym]) (some f)
      (post.map some ++ none :: g :: tail)
    simpa using this
  have hshift := shiftArgs_tokens post (pre.map some) sym f g tail (by simpa using hlen)
  simp only [List.length_map] at hshift
  rw [hfile]
  simp only [List.nil_append]
  rw [hshift]
  simp [mkArgs]

/-- One call of `checkFileRedirection` when the symbol is absent: the call
returns `0` and changes neither `*file` nor the array. -/
theorem checkFileRedirection_absent (sym : String) (file : Option String)
    (toks : List String) (rest : List (Option String)) (h : sym ∉ toks) :
    checkFileRedirection (mkArgs toks rest) file sym = (0, file, mkArgs toks rest) := by
  have := scanArgs_absent sym file toks [] rest h
  simpa [checkFileRedirection, mkArgs] using this

theorem isRedir_eq_false {t : String} : isRedir t = false ↔ t ≠ "<" ∧ t ≠ ">" := by
  simp [isRedir]

theorem followedByFile_tail {t : String} {l : List String}
    (h : followedByFile (t :: l) = true) : followedByFile l = true := by
  cases l with
  | nil => rfl
  | cons f more =>
    simp only [followedByFile, Bool.and_eq_true] at h
    exact h.2

theorem followedByFile_cons_plain {t : String} {l : List String} (ht : isRedir t = false)
    (h : followedByFile l = true) : followedByFile (t :: l) = true := by
  cases l with
  | nil => simp [followedByFile, ht]
  | cons f more => simp [followedByFile, ht, h]

theorem followedByFile_suffix (A : List String) {l : List String}
    (h : followedByFile (A ++ l) = true) : followedByFile l = true := by
  induction A with
  | nil => simpa using h
  | cons a A ih => exact ih (followedByFile_tail h)

theorem followedByFile_next {s : String} {l : List String} (hs : isRedir s = true)
    (h : followedByFile (s :: l) = true) : ∃ f more, l = f :: more ∧ isRedir f = false := by
  cases l with
  | nil => simp [followedByFile, hs] at h
  | cons f more =>
    refine ⟨f, more, rfl, ?_⟩
    simp only [followedByFile, hs, Bool.not_true, Bool.false_or, Bool.and_eq_true,
      Bool.not_eq_true'] at h
    exact h.1

theorem stripRedir_cons_plain {t : String} (l : List String) (ht : isRedir t = false) :
    stripRedir (t :: l) = t :: stripRedir l := by
  cases l with
  | nil => simp [stripRedir, ht]
  | cons f more => simp [stripRedir, ht]

theorem stripRedir_plain (l : List String) (h : ∀ t ∈ l, isRedir t = false) :
    stripRedir l = l := by
  induction l with
  | nil => rfl
  | cons t l ih =>
    rw [stripRedir_cons_plain l (h t (by simp)), ih fun u hu => h u (by simp [hu])]

/-- Taking one symbol and the token after it out of a list leaves every other
symbol immediately followed by a token that is not a symbol. -/
theorem followedByFile_remove {s f : String} (hs : isRedir s = true) (C : List String) :
    ∀ A : List String, followedByFile (A ++ s :: f :: C) = true →
      followedByFile (A ++ C) = true := by
  intro A
  induction A with
  | nil => intro h; exact followedByFile_tail (followedByFile_tail h)
  | cons a A ih =>
    intro h
    cases A with
    | nil =>
      have ha : isRedir a = false := by
        simp only [List.cons_append, List.nil_append, followedByFile, hs, Bool.not_true,
          Bool.or_false, Bool.and_eq_true, Bool.not_eq_true'] at h
        exact h.1
      exact followedByFile_cons_plain ha (ih (followedByFile_tail h))
    | cons b A =>
      have hrest := ih (followedByFile_tail h)
      simp only [List.cons_append, followedByFile, Bool.and_eq_true] at h hrest ⊢
      exact ⟨h.1, hrest⟩

/-- Taking one symbol and the token after it out of a list does not change what
is left once all symbols and their tokens are removed. -/
theorem stripRedir_remove {s f : String} (hs : isRedir s = true) (C : List String) :
    ∀ (n : Nat) (A : List String), A.length ≤ n →
      followedByFile (A ++ s :: f :: C) = true →
      stripRedir (A ++ s :: f :: C) = stripRedir (A ++ C) := by
  intro n
  induction n with
  | zero =>
    intro A hA _
    have : A = [] := List.eq_nil_of_length_eq_zero (by omega)
    subst this
    simp [stripRedir, hs]
  | succ n ih =>
    intro A hA h
    match A, hA, h with
    | [], _, _ => simp [stripRedir, hs]
    | [a], _, h =>
      have ha : isRedir a = false := by
        simp only [List.cons_append, List.nil_append, followedByFile, hs, Bool.not_true,
          Bool.or_false, Bool.and_eq_true, Bool.not_eq_true'] at h
        exact h.1
      simp only [List.cons_append, List.nil_append]
      rw [stripRedir_cons_plain _ ha, stripRedir_cons_plain _ ha]
      simp [stripRedir, hs]
    | a :: b :: A, hA, h =>
      by_cases ha : isRedir a = true
      · have hnext := ih A (by simp at hA; omega)
          (followedByFile_tail (followedByFile_tail h))
        simpa [stripRedir, ha] using hnext
      · have ha : isRedir a = false := by simpa using ha
        have hnext := ih (b :: A) (by simp at hA ⊢; omega) (followedByFile_tail h)
        simp only [List.cons_append] at hnext ⊢
        rw [stripRedir_cons_plain _ ha, stripRedir_cons_plain _ ha, hnext]

theorem exists_first_occurrence (sym : String) :
    ∀ l : List String, sym ∈ l → ∃ pre post, l = pre ++ sym :: post ∧ sym ∉ pre := by
  intro l
  induction l with
  | nil => intro h; simp at h
  | cons t l ih =>
    intro h
    by_cases ht : t = sym
    · exact ⟨[], l, by simp [ht], by simp⟩
    · have hl : sym ∈ l := by
        rcases List.mem_cons.mp h with e | e
        · exact absurd e.symm ht
        · exact e
      obtain ⟨pre, post, rfl, hpre⟩ := ih hl
      refine ⟨t :: pre, post, by simp, ?_⟩
      intro hmem
      rcases List.mem_cons.mp hmem with e | e
      · exact ht e.symm
      · exact hpre e

theorem fileAfter_first (sym f : String) (post : List String) :
    ∀ pre : List String, sym ∉ pre → fileAfter sym (pre ++ sym :: f :: post) = some f := by
  intro pre
  induction pre with
  | nil => intro _; simp [fileAfter]
  | cons t pre ih =>
    intro h
    have ht : t ≠ sym := fun e => h (by simp [e])
    have hpre : sym ∉ pre := fun e => h (by simp [e])
    simp [fileAfter, ht, ih hpre]

/-- Taking one symbol and the token after it out of a list does not change the
token that follows the other symbol. -/
theorem fileAfter_remove {s f sym : String} (hs : isRedir s = true) (hsym : isRedir sym = true)
    (hne : s ≠ sym) (hf : isRedir f = false) (C : List String) :
    ∀ A : List String, followedByFile (A ++ s :: f :: C) = true →
      fileAfter sym (A ++ s :: f :: C) = fileAfter sym (A ++ C) := by
  have hfs : f ≠ sym := fun e => by rw [e, hsym] at hf; cases hf
  intro A
  induction A with
  | nil => intro _; simp [fileAfter, hne, hfs]
  | cons a A ih =>
    intro h
    by_cases ha : a = sym
    · subst ha
      obtain ⟨x, more, hx, hxr⟩ := followedByFile_next hsym h
      cases A with
      | nil =>
        have hx2 : s :: f :: C = x :: more := hx
        simp only [List.cons.injEq] at hx2
        rw [← hx2.1, hs] at hxr
        cases hxr
      | cons b A => simp [fileAfter]
    · simp only [List.cons_append, fileAfter, ha, if_false]
      exact ih (followedByFile_tail h)

theorem not_mem_of_count_le_one {sym f : String} {pre post : List String}
    (h : (pre ++ sym :: f :: post).count sym ≤ 1) : sym ∉ pre ∧ sym ∉ post := by
  simp only [List.count_append, List.count_cons, beq_self_eq_true, if_true] at h
  constructor
  · exact List.count_eq_zero.mp (by omega)
  · exact List.count_eq_zero.mp (by omega)

/-- What one call of `checkFileRedirection` does to a terminated token list with
at most one `sym`, every symbol followed by a file name. -/
theorem checkFileRedirection_step (sym : String) (hsym : isRedir sym = true)
    (toks : List String) (rest : List (Option String)) (file : Option String)
    (hrest : rest ≠ []) (hn : toks.length ≤ MAXARGS - 2)
    (hcount : toks.count sym ≤ 1) (hfol : followedByFile toks = true) :
    ∃ toks1 rest1,
      (checkFileRedirection (mkArgs toks rest) file sym).2.2 = mkArgs toks1 rest1 ∧
      rest1 ≠ [] ∧ toks1.length ≤ toks.length ∧
      (mkArgs toks1 rest1).length = (mkArgs toks rest).length ∧
      sym ∉ toks1 ∧ followedByFile toks1 = true ∧ stripRedir toks1 = stripRedir toks ∧
      (∀ o, isRedir o = true → o ≠ sym →
        toks1.count o ≤ toks.count o ∧ (o ∈ toks1 ↔ o ∈ toks) ∧
        fileAfter o toks1 = fileAfter o toks) ∧
      (checkFileRedirection (mkArgs toks rest) file sym).1 = (if sym ∈ toks then 1 else 0) ∧
      (sym ∈ toks →
        (checkFileRedirection (mkArgs toks rest) file sym).2.1 = fileAfter sym toks) ∧
      (sym ∉ toks →
        (checkFileRedirection (mkArgs toks rest) file sym).2.1 = file ∧
        (checkFileRedirection (mkArgs toks rest) file sym).2.2 = mkArgs toks rest) := by
  by_cases hmem : sym ∈ toks
  · obtain ⟨A, X, rfl, hA⟩ := exists_first_occurrence sym toks hmem
    obtain ⟨f, C, rfl, hf⟩ := followedByFile_next hsym (followedByFile_suffix A hfol)
    obtain ⟨g, tail, rfl⟩ := List.exists_cons_of_ne_nil hrest
    have hC : sym ∉ C := (not_mem_of_count_le_one hcount).2
    have hcall := checkFileRedirection_found sym f file A C g tail hA
      (by simp at hn; omega)
    have hfsym : f ≠ sym := fun e => by rw [e, hsym] at hf; cases hf
    refine ⟨A ++ C, g :: none :: g :: tail, by rw [hcall], by simp, by simp; omega, ?_, ?_,
      followedByFile_remove hsym C A hfol,
      (stripRedir_remove hsym C A.length A (Nat.le_refl _) hfol).symm, ?_, ?_, ?_, ?_⟩
    · simp [mkArgs]; omega
    · simp [hA, hC]
    · intro o ho hne
      have hfo : f ≠ o := fun e => by rw [e, ho] at hf; cases hf
      refine ⟨?_, ?_, (fileAfter_remove hsym ho (Ne.symm hne) hf C A hfol).symm⟩
      · simp only [List.count_append, List.count_cons]
        omega
      · simp [hne, Ne.symm hfo]
    · rw [hcall]; simp
    · intro _
      rw [hcall, fileAfter_first sym f C A hA]
    · intro h; exact absurd hmem h
  · have hcall := checkFileRedirection_absent sym file toks rest hmem
    refine ⟨toks, rest, by rw [hcall], hrest, Nat.le_refl _, rfl, hmem, hfol, rfl, ?_, ?_, ?_, ?_⟩
    · intro o _ _; exact ⟨Nat.le_refl _, Iff.rfl, rfl⟩
    · rw [hcall]; simp [hmem]
    · intro h; exact absurd h hmem
    · intro _; rw [hcall]; exact ⟨rfl, rfl⟩

/-- C6: for a terminated argument array of `MAXARGS` slots holding at most 509
tokens, with at most one "<" and at most one ">", each immediately followed by a
token that is not itself a symbol, the call for "<" followed by the call for ">"
return `1` exactly for the symbols present, store the token that followed each
symbol, and leave an array that reads, up to its first `NULL`, as the original
tokens without the symbols and their file names, in their original order. A call
for an absent symbol returns `0` and changes neither its file nor the array. -/
theorem redirection_resolved (toks : List String) (rest : List (Option String))
    (fileIn fileOut : Option String)
    (r1 r2 : Int × Option String × List (Option String))
    (hlen : (mkArgs toks rest).length = MAXARGS) (hn : toks.length ≤ 509)
    (hin : toks.count "<" ≤ 1) (hout : toks.count ">" ≤ 1)
    (hfol : followedByFile toks = true)
    (h1 : checkFileRedirection (mkArgs toks rest) fileIn "<" = r1)
    (h2 : checkFileRedirection r1.2.2 fileOut ">" = r2) :
    r1.1 = (if "<" ∈ toks then 1 else 0) ∧
    r2.1 = (if ">" ∈ toks then 1 else 0) ∧
    (∀ pre f post, toks = pre ++ "<" :: f :: post → r1.2.1 = some f) ∧
    (∀ pre f post, toks = pre ++ ">" :: f :: post → r2.2.1 = some f) ∧
    ("<" ∉ toks → r1.2.1 = fileIn ∧ r1.2.2 = mkArgs toks rest) ∧
    (">" ∉ toks → r2.2.1 = fileOut ∧ r2.2.2 = r1.2.2) ∧
    readArgs r2.2.2 = stripRedir toks ∧
    r2.2.2.length = MAXARGS := by
  have hrest : rest ≠ [] := by
    intro e
    subst e
    simp [mkArgs, MAXARGS] at hlen
    omega
  obtain ⟨toks1, rest1, hargs1, hrest1, hlen1, hsize1, hno1, hfol1, hstrip1, hother1,
      hret1, hfile1, habs1⟩ :=
    checkFileRedirection_step "<" (by decide) toks rest fileIn hrest
      (by simp [MAXARGS]; omega) hin hfol
  rw [h1] at hargs1 hret1 hfile1 habs1
  obtain ⟨hcnt, hiff, hafter⟩ := hother1 ">" (by decide) (by decide)
  obtain ⟨toks2, rest2, hargs2, _, _, hsize2, hno2, _, hstrip2, hother2,
      hret2, hfile2, habs2⟩ :=
    checkFileRedirection_step ">" (by decide) toks1 rest1 fileOut hrest1
      (by simp [MAXARGS]; omega) (by omega) hfol1
  rw [← hargs1, h2] at hargs2 hret2 hfile2 habs2
  have hno2in : "<" ∉ toks2 := fun h =>
    hno1 (((hother2 "<" (by decide) (by decide)).2.1).mp h)
  have hplain : ∀ t ∈ toks2, isRedir t = false := by
    intro t ht
    rw [isRedir_eq_false]
    exact ⟨fun e => hno2in (e ▸ ht), fun e => hno2 (e ▸ ht)⟩
  refine ⟨hret1, ?_, ?_, ?_, habs1, ?_, ?_, ?_⟩
  · rw [hret2]
    simp only [hiff]
  · intro pre f post e
    subst e
    rw [hfile1 (by simp), fileAfter_first "<" f post pre (not_mem_of_count_le_one hin).1]
  · intro pre f post e
    subst e
    have hmem : ">" ∈ toks1 := hiff.mpr (by simp)
    rw [hfile2 hmem, hafter,
      fileAfter_first ">" f post pre (not_mem_of_count_le_one hout).1]
  · intro h
    exact habs2 fun h1 => h (hiff.mp h1)
  · rw [hargs2, readArgs_mkArgs, ← hstrip1, ← hstrip2, stripRedir_plain toks2 hplain]
  · rw [hargs2, hsize2, hsize1, hlen]

/-- C6 at `sort > out < in -r`, the output symbol first, the slots beyond the
terminator holding stale pointers: the array reads `sort -r` afterwards. -/
theorem redirection_resolved_witness :
    readArgs (checkFileRedirection
        (checkFileRedirection
          (mkArgs ["sort", ">", "out", "<", "in", "-r"] (List.replicate 505 (some "stale")))
          none "<").2.2 none ">").2.2
      = ["sort", "-r"] :=
  (redirection_resolved ["sort", ">", "out", "<", "in", "-r"]
    (List.replicate 505 (some "stale")) none none _ _
    (by simp only [mkArgs, List.length_append, List.length_map, List.length_cons,
      List.length_replicate, List.length_nil, MAXARGS])
    (by decide) (by decide) (by decide) (by decide)
    rfl rfl).2.2.2.2.2.2.1.trans
    (by decide)

/-! ## C7 -/

/-- C7: for a status other than the unset value `-1`, `printBgExitStatus` prints
its "Background pid <pid> is done: " prefix followed by exactly what `runStatus`
prints: "Exit status was N" for a normal exit with code `N`, "terminated by
signal K" for a termination by signal `K`; for `-1`, `runStatus` prints its one
fixed line. With the Linux encoding, exit code `N` (0 to 255) is the status
`N * 256` and signal `K` (1 to 126) the status `K`. -/
theorem status_wording_matches_background_report (W : WaitMacros) (pid s : Int)
    (hs : s ≠ -1) :
    printBgExitStatus W pid s
      = "Background pid " ++ toString pid ++ " is done: " ++ runStatus W s ∧
    (W.WIFEXITED s = true →
      runStatus W s = "Exit status was " ++ toString (W.WEXITSTATUS s) ++ "\n") ∧
    (W.WIFEXITED s = false → W.WIFSIGNALED s ≠ 0 →
      runStatus W s = "terminated by signal " ++ toString (W.WTERMSIG s) ++ "\n") ∧
    runStatus W (-1) = "No non-standard command has been run, exit status is 0\n" ∧
    (∀ N : Int, 0 ≤ N → N ≤ 255 →
      runStatus linuxWait (N * 256) = "Exit status was " ++ toString N ++ "\n") ∧
    (∀ K : Int, 1 ≤ K → K ≤ 126 →
      runStatus linuxWait K = "terminated by signal " ++ toString K ++ "\n") := by
  refine ⟨?_, ?_, ?_, ?_, ?_, ?_⟩
  · simp [printBgExitStatus, runStatus, hs]
  · intro h
    simp [runStatus, hs, h]
  · intro h1 h2
    simp [runStatus, hs, h1, h2]
  · simp [runStatus]
  · intro N h0 h255
    have h1 : N * 256 ≠ -1 := by omega
    have h2 : N * 256 % 128 = 0 := by omega
    have h3 : N * 256 / 256 % 256 = N := by omega
    have h4 : N % 256 = N := by omega
    simp [runStatus, linuxWait, h1, h2, h3, h4]
  · intro K h1 h126
    have h2 : K ≠ -1 := by omega
    have h3 : K % 128 = K := by omega
    have h4 : K ≠ 0 := by omega
    have h5 : 0 < K ∧ K < 127 := by omega
    simp [runStatus, linuxWait, h2, h3, h4, h5]

/-- C7 at exit code 7 (Linux status `1792`): `status` prints "Exit status was 7". -/
theorem status_wording_matches_background_report_witness :
    runStatus linuxWait 1792 = "Exit status was 7\n" ∧
    printBgExitStatus linuxWait 4321 1792
      = "Background pid 4321 is done: Exit status was 7\n" := by
  have h := status_wording_matches_background_report linuxWait 4321 1792 (by decide)
  refine ⟨?_, ?_⟩
  · rw [h.2.1 (by decide)]
    decide
  · rw [h.1, h.2.1 (by decide)]
    decide

/-! ## C8 -/

/-- C8, amended: when the first "<" of the argument array of the child is followed by a
pointer `x` whose read-only `open` fails, the child branch makes exactly three
observable steps, the `open` for reading, the input-direction diagnostic on
standard error, and `exit(1)`; so no file is opened for writing, no
output-direction diagnostic is written and `execvp` is not reached, whatever the
slots after `x` hold. The same holds for `runNonStandard` in the child
(`fork` returned `0`) when that array is what `checkForBackground` left. -/
theorem failed_input_redirection_stops_child (W : WaitMacros) (os : ChildOS) (sh : Shell)
    (pre : List String) (x : Option String) (post : List (Option String))
    (isBackground : Int) (hfirst : "<" ∉ pre) (hsize : pre.length < MAXARGS)
    (hopen : os.openRead x = -1) :
    (runChild os sh (pre.map some ++ some "<" :: x :: post) isBackground).2
      = ([Event.openRead x, Event.stderr "ERROR: opening file for input redirection\n",
          Event.exit 1], Flow.exited 1) ∧
    (∀ (args : List (Option String)) (maxArgs lastExitStatus waitStatus : Int) (sigs : Nat),
      (checkForBackground args maxArgs).2 = pre.map some ++ some "<" :: x :: post →
      (runNonStandard W os sh args maxArgs lastExitStatus 0 waitStatus sigs).trace
        = [Event.openRead x, Event.stderr "ERROR: opening file for input redirection\n",
            Event.exit 1] ∧
      (runNonStandard W os sh args maxArgs lastExitStatus 0 waitStatus sigs).flow
        = Flow.exited 1) := by
  have hscan := scanArgs_found "<" none pre [] (x :: post) hfirst (by simpa using hsize)
  have hx : argAt ([] ++ (pre.map some ++ some "<" :: x :: post)) (pre.length + 1) = x := by
    have := argAt_append_length (pre.map some ++ [some "<"]) x post
    simpa using this
  simp only [List.length_nil, Nat.zero_add] at hscan
  rw [hx] at hscan
  simp only [List.nil_append] at hscan
  have hchild : ∀ b : Int,
      (runChild os sh (pre.map some ++ some "<" :: x :: post) b).2
        = ([Event.openRead x, Event.stderr "ERROR: opening file for input redirection\n",
            Event.exit 1], Flow.exited 1) := by
    intro b
    simp [runChild, checkFileRedirection, hscan, performFileRedirection, hopen]
  refine ⟨hchild isBackground, ?_⟩
  intro args maxArgs lastExitStatus waitStatus sigs hargs
  have h := hchild (checkForBackground args maxArgs).1
  simp only [runNonStandard, hargs]
  simp [h]

/-- C8 amended, at `cat < missing > out`, every `open` failing: the child stops after the
input-direction diagnostic. -/
theorem failed_input_redirection_stops_child_witness :
    (runChild ⟨fun _ => -1, fun _ => -1, fun _ _ => 0, fun _ _ => true⟩
        ⟨⟨List.replicate 50 0, 0⟩, 0, -1⟩
        (["cat"].map some ++ some "<" :: some "missing" :: [some ">", some "out", none]) 0).2
      = ([Event.openRead (some "missing"),
          Event.stderr "ERROR: opening file for input redirection\n", Event.exit 1],
          Flow.exited 1) :=
  (failed_input_redirection_stops_child linuxWait
    ⟨fun _ => -1, fun _ => -1, fun _ _ => 0, fun _ _ => true⟩
    ⟨⟨List.replicate 50 0, 0⟩, 0, -1⟩ ["cat"] (some "missing") [some ">", some "out", none] 0
    (by decide) (by decide) rfl).1

/-- C8, at `cat < ok < missing` where only the open of `missing` fails: the list
contains a "<" followed by a file whose read-only open fails, yet the child
takes the first "<", opens `ok`, and reaches `execvp` with `cat < missing`; it
writes no diagnostic and does not exit. -/
theorem second_input_redirection_is_not_opened :
    (⟨fun f => if f = some "missing" then -1 else 3, fun _ => 4, fun _ _ => 0,
        fun _ _ => true⟩ : ChildOS).openRead (some "missing") = -1 ∧
    (runChild ⟨fun f => if f = some "missing" then -1 else 3, fun _ => 4, fun _ _ => 0,
        fun _ _ => true⟩ ⟨⟨List.replicate 50 0, 0⟩, 0, -1⟩
        (mkArgs ["cat", "<", "ok", "<", "missing"] (none :: List.replicate 505 none)) 0).2
      = ([Event.openRead (some "ok"), Event.dup2 3 0, Event.sigIgnore SIGTSTP,
          Event.sigDefault SIGINT, Event.execvp (some "cat") ["cat", "<", "missing"]],
          Flow.replaced) ∧
    (runChild ⟨fun f => if f = some "missing" then -1 else 3, fun _ => 4, fun _ _ => 0,
        fun _ _ => true⟩ ⟨⟨List.replicate 50 0, 0⟩, 0, -1⟩
        (mkArgs ["cat", "<", "ok", "<", "missing"] (none :: List.replicate 505 none)) 0).2
      ≠ ([Event.openRead (some "missing"),
          Event.stderr "ERROR: opening file for input redirection\n", Event.exit 1],
          Flow.exited 1) := by
  have h1 : checkFileRedirection
      (mkArgs ["cat", "<", "ok", "<", "missing"] (none :: List.replicate 505 none)) none "<"
      = (1, some "ok",
          mkArgs ["cat", "<", "missing"] (none :: none :: none :: List.replicate 505 none)) :=
    checkFileRedirection_found "<" "ok" none ["cat"] ["<", "missing"] none
      (List.replicate 505 none) (by decide) (by decide)
  have h2 : checkFileRedirection
      (mkArgs ["cat", "<", "missing"] (none :: none :: none :: List.replicate 505 none))
      none ">"
      = (0, none,
          mkArgs ["cat", "<", "missing"] (none :: none :: none :: List.replicate 505 none)) :=
    checkFileRedirection_absent ">" none ["cat", "<", "missing"] _ (by decide)
  have hread : readArgs
      (mkArgs ["cat", "<", "missing"] (none :: none :: none :: List.replicate 505 none))
      = ["cat", "<", "missing"] := readArgs_mkArgs _ _
  have hcmd : argAt
      (mkArgs ["cat", "<", "missing"] (none :: none :: none :: List.replicate 505 none)) 0
      = some "cat" := rfl
  have hrun : (runChild ⟨fun f => if f = some "missing" then -1 else 3, fun _ => 4,
        fun _ _ => 0, fun _ _ => true⟩ ⟨⟨List.replicate 50 0, 0⟩, 0, -1⟩
        (mkArgs ["cat", "<", "ok", "<", "missing"] (none :: List.replicate 505 none)) 0).2
      = ([Event.openRead (some "ok"), Event.dup2 3 0, Event.sigIgnore SIGTSTP,
          Event.sigDefault SIGINT, Event.execvp (some "cat") ["cat", "<", "missing"]],
          Flow.replaced) := by
    simp only [runChild, h1, h2, hread, hcmd, performFileRedirection]
    decide
  refine ⟨by decide, hrun, ?_⟩
  rw [hrun]
  decide

/-! ## C9 -/

theorem spacedWords_length (k : Nat) : (spacedWords k).length = 2 * k + 1 := by
  induction k with
  | zero => rfl
  | succ k ih => simp [spacedWords, ih]; omega

theorem spacedWords_line (k : Nat) :
    (spacedWords k ++ ['\n']).takeWhile (fun c => c != '\n') = spacedWords k := by
  induction k with
  | zero => decide
  | succ k ih =>
    simp only [spacedWords, List.cons_append]
    rw [List.takeWhile_cons_of_pos (by decide), List.takeWhile_cons_of_pos (by decide), ih]

theorem spacedWords_no_dollars (k : Nat) : strstr (spacedWords k) ['$', '$'] = none := by
  induction k with
  | zero => decide
  | succ k ih =>
    have h1 : startsWith ('a' :: ' ' :: spacedWords k) ['$', '$'] = false := by
      simp [startsWith]
    have h2 : startsWith (' ' :: spacedWords k) ['$', '$'] = false := by
      simp [startsWith]
    simp [spacedWords, strstr, h1, h2, ih]

theorem strtok_spacedWords_succ (k : Nat) :
    strtok (spacedWords (k + 1)) = some (['a'], spacedWords k) := by
  simp [strtok, spacedWords, List.dropWhile, List.takeWhile]

theorem strtok_spacedWords_zero : strtok (spacedWords 0) = some (['a'], []) := by
  decide

/-- The splitting loop runs out of slots when more words are left than slots. -/
theorem splitLoop_overflow (k : Nat) :
    ∀ (fuel : Nat) (args : List (Option String)) (argIdx : Nat),
      k + 2 ≤ fuel → MAXARGS < argIdx + k + 1 →
      splitLoop fuel (spacedWords k) args argIdx = Except.error Fault.argsOverflow := by
  induction k with
  | zero =>
    intro fuel args argIdx hfuel hslots
    obtain ⟨fuel, rfl⟩ : ∃ n, fuel = n + 1 := ⟨fuel - 1, by omega⟩
    have : ¬ argIdx < MAXARGS := by omega
    simp [splitLoop, strtok_spacedWords_zero, this]
  | succ k ih =>
    intro fuel args argIdx hfuel hslots
    obtain ⟨fuel, rfl⟩ : ∃ n, fuel = n + 1 := ⟨fuel - 1, by omega⟩
    simp only [splitLoop, strtok_spacedWords_succ]
    by_cases h : argIdx < MAXARGS
    · simp only [h, if_true]
      exact ih fuel _ (argIdx + 1) (by omega) (by omega)
    · simp [h]

/-- C9, at two lines `getInput` returns. For the line of one space the command
word is `NULL` and the comparison with "exit" dereferences it; for a line of 513
one-letter words (1026 characters with the newline) the words do not fit the
512 slots of `args`. Neither depends on the shell pid or on what the array held. -/
theorem shellDriver_faults_on_accepted_lines (curPid : Int) (stack : List (Option String)) :
    (getInput " \n".toList = some " ".toList ∧
      shellDriverPass curPid stack " ".toList = Except.error Fault.nullCommand) ∧
    ((spacedWords 512 ++ ['\n']).length ≤ MAXLINE ∧
      getInput (spacedWords 512 ++ ['\n']) = some (spacedWords 512) ∧
      shellDriverPass curPid stack (spacedWords 512) = Except.error Fault.argsOverflow) := by
  refine ⟨⟨by decide, rfl⟩, ?_, ?_, ?_⟩
  · simp [spacedWords_length, MAXLINE]
  · have hlen : (spacedWords 512 ++ ['\n']).length = 1026 := by simp [spacedWords_length]
    have hhead : (spacedWords 512 ++ ['\n']).head? = some 'a' := rfl
    simp only [getInput, hlen, hhead, spacedWords_line, MAXLINE]
    simp
  · have hexp : variableExpandPID curPid (spacedWords 512) [] = some (spacedWords 512) := by
      simp [variableExpandPID, spacedWords_no_dollars]
    have hlen : (spacedWords 512).length = 1025 := by simp [spacedWords_length]
    have hsplit := fun args =>
      splitLoop_overflow 511 (1025 + 1) args 1 (by omega) (by simp [MAXARGS])
    have hfirst : strtok (spacedWords 512) = some (['a'], spacedWords 511) :=
      strtok_spacedWords_succ 511
    have hfits : ¬ MAXLINE ≤ 1025 := by simp [MAXLINE]
    unfold shellDriverPass
    rw [hexp]
    dsimp only
    rw [hlen, if_neg hfits, hfirst]
    dsimp only
    rw [hsplit]

/-! ## C10 -/

/-- C10: `runCD` on a token list that starts with "cd". With two or more path
arguments it prints "ERROR: Too Many Arguments" and nothing else, and makes no
`chdir` call; with none it calls `chdir` on the value of `HOME`; with one it
calls `chdir` on that argument. When the `chdir` call fails the could-not-find-directory
message follows and the working directory is the one before the
call; when it succeeds nothing is printed. No path of `runCD` ends the process. -/
theorem runCD_zero_one_or_too_many (os : DirOS) (home : Option String) (cwd : String)
    (rest : List (Option String)) :
    (∀ (p q : String) (more : List String),
      runCD os home cwd (mkArgs ("cd" :: p :: q :: more) rest)
          (("cd" :: p :: q :: more).length : Nat)
        = (cwd, [Event.stdout "ERROR: Too Many Arguments\n"])) ∧
    runCD os home cwd (mkArgs ["cd"] rest) 1
      = (match os.resolve cwd home with
        | some dir => (dir, [Event.chdir home])
        | none => (cwd, [Event.chdir home, Event.stdout
            "ERROR: Could not find directory, working directory unchanged\n"])) ∧
    (∀ p : String,
      runCD os home cwd (mkArgs ["cd", p] rest) 2
        = (match os.resolve cwd (some p) with
          | some dir => (dir, [Event.chdir (some p)])
          | none => (cwd, [Event.chdir (some p), Event.stdout
              "ERROR: Could not find directory, working directory unchanged\n"]))) ∧
    (∀ (toks : List String) (code : Int),
      Event.exit code ∉ (runCD os home cwd (mkArgs toks rest) (toks.length : Nat)).2) := by
  refine ⟨?_, ?_, ?_, ?_⟩
  · intro p q more
    have h : ((("cd" :: p :: q :: more).length : Nat) : Int) > 2 := by
      simp only [List.length_cons, Nat.cast_add, Nat.cast_one]
      omega
    simp only [runCD, h, if_true]
    simp
  · cases h : os.resolve cwd home <;> simp [runCD, mkArgs, argAt, DirOS.chdir, h]
  · intro p
    cases h : os.resolve cwd (some p) <;> simp [runCD, mkArgs, argAt, DirOS.chdir, h]
  · intro toks code
    simp only [runCD]
    split_ifs <;> simp

/-! ## The bounds on loop passes are never reached -/

theorem strstr_dollars_bound :
    ∀ (line : List Char) (k : Nat), strstr line ['$', '$'] = some k → k + 2 ≤ line.length := by
  intro line
  induction line with
  | nil => intro k h; simp [strstr, startsWith] at h
  | cons c cs ih =>
    intro k h
    simp only [strstr] at h
    split at h
    · rename_i hstart
      cases cs with
      | nil => simp [startsWith] at hstart
      | cons d ds =>
        simp only [Option.some.injEq] at h
        subst h
        simp
    · cases hk : strstr cs ['$', '$'] with
      | none => simp [hk] at h
      | some j =>
        simp only [hk, Option.map_some', Option.some.injEq] at h
        have := ih j hk
        simp only [List.length_cons]
        omega

theorem expandLoop_total (pid : List Char) :
    ∀ (fuel : Nat) (line expandedLine : List Char) (subStrFound : Int),
      line.length < fuel → (expandLoop pid fuel line expandedLine subStrFound).isSome = true := by
  intro fuel
  induction fuel with
  | zero => intro line _ _ h; omega
  | succ fuel ih =>
    intro line expandedLine subStrFound h
    cases hk : strstr line ['$', '$'] with
    | none => simp [expandLoop, hk]
    | some k =>
      have hb := strstr_dollars_bound line k hk
      simp only [expandLoop, hk]
      exact ih _ _ _ (by simp only [List.length_drop]; omega)

/-- The function `variableExpandPID` always produces a line. -/
theorem variableExpandPID_total (curPid : Int) (line expandedLine : List Char) :
    (variableExpandPID curPid line expandedLine).isSome = true := by
  unfold variableExpandPID
  split
  · exact expandLoop_total _ _ _ _ _ (by omega)
  · rfl

theorem length_dropWhile_le_length (p : Char → Bool) :
    ∀ l : List Char, (l.dropWhile p).length ≤ l.length := by
  intro l
  induction l with
  | nil => simp
  | cons c cs ih =>
    simp only [List.dropWhile_cons]
    split
    · simp only [List.length_cons]; omega
    · simp

theorem strtok_shorter (s token next : List Char) (h : strtok s = some (token, next)) :
    next.length < s.length := by
  simp only [strtok] at h
  split at h
  · cases h
  · rename_i hne
    simp only [Option.some.injEq, Prod.mk.injEq] at h
    rw [← h.2]
    have h1 := length_dropWhile_le_length (fun c => c == ' ') s
    have h2 := length_dropWhile_le_length (fun c => c != ' ')
      (s.dropWhile fun c => c == ' ')
    have h3 : 0 < (s.dropWhile fun c => c == ' ').length := List.length_pos.mpr hne
    simp only [List.length_drop]
    omega

theorem splitLoop_fuel :
    ∀ (fuel : Nat) (saved : List Char) (args : List (Option String)) (argIdx : Nat),
      saved.length < fuel → splitLoop fuel saved args argIdx ≠ Except.error Fault.outOfFuel := by
  intro fuel
  induction fuel with
  | zero => intro saved _ _ h; omega
  | succ fuel ih =>
    intro saved args argIdx h
    cases hk : strtok saved with
    | none => simp [splitLoop, hk]
    | some r =>
      obtain ⟨token, next⟩ := r
      have hs := strtok_shorter saved token next hk
      simp only [splitLoop, hk]
      split
      · exact ih _ _ _ (by omega)
      · simp

/-- One pass of the loop of `shellDriver` never stops on the bound of the model:
it dispatches or it ends in one of the three faults of the program. -/
theorem shellDriverPass_fuel (curPid : Int) (stack : List (Option String)) (line : List Char) :
    shellDriverPass curPid stack line ≠ Except.error Fault.outOfFuel := by
  unfold shellDriverPass
  have htotal := variableExpandPID_total curPid line []
  cases hexp : variableExpandPID curPid line [] with
  | none => simp [hexp] at htotal
  | some expandedLine =>
    dsimp only
    split
    · simp
    · have hsaved : (match strtok expandedLine with
          | some r => r.2
          | none => []).length < expandedLine.length + 1 := by
        cases hfirst : strtok expandedLine with
        | none => simp
        | some r =>
          obtain ⟨token, next⟩ := r
          have := strtok_shorter expandedLine token next hfirst
          simp only
          omega
      have hloop := splitLoop_fuel (expandedLine.length + 1) _
        (stack.set 0 ((strtok expandedLine).map fun r => String.mk r.1)) 1 hsaved
      split
      · rename_i f hf
        intro h
        simp only [Except.error.injEq] at h
        subst h
        exact hloop hf
      · split
        · simp
        · split <;> simp

/-! ## C11 -/

/-- One delivery of SIGTSTP while a foreground child runs: nothing is written
and `fgOnlyMode` is flipped. -/
theorem catchSIGTSTP_foreground (s : Shell) (h : s.runningFGPid ≠ -1) :
    catchSIGTSTP s = ({ s with fgOnlyMode := if s.fgOnlyMode = 0 then 1 else 0 }, []) := by
  simp [catchSIGTSTP, h]

/-- After `k` deliveries of SIGTSTP while a foreground child runs, nothing has
been written and `fgOnlyMode` is its old value for even `k`, the other one for odd `k`. -/
theorem deliverSIGTSTP_foreground (k : Nat) :
    ∀ s : Shell, s.runningFGPid ≠ -1 → (s.fgOnlyMode = 0 ∨ s.fgOnlyMode = 1) →
      deliverSIGTSTP k s
        = ({ s with fgOnlyMode := if k % 2 = 0 then s.fgOnlyMode else 1 - s.fgOnlyMode }, []) := by
  induction k with
  | zero => intro s _ _; simp [deliverSIGTSTP]
  | succ k ih =>
    intro s hfg hm
    obtain ⟨bg, m, fg⟩ := s
    simp only at hfg hm
    have hnext := ih ⟨bg, (if m = 0 then 1 else 0), fg⟩ hfg
      (by rcases hm with h | h <;> simp [h])
    have hcatch : catchSIGTSTP ⟨bg, m, fg⟩ = (⟨bg, (if m = 0 then 1 else 0), fg⟩, []) :=
      catchSIGTSTP_foreground ⟨bg, m, fg⟩ hfg
    simp only [deliverSIGTSTP]
    rw [hcatch]
    dsimp only
    rw [hnext]
    have hpar : k % 2 = 0 ∨ k % 2 = 1 := Nat.mod_two_eq_zero_or_one k
    rcases hm with h | h <;> rcases hpar with hk | hk
    · have h2 : (k + 1) % 2 = 1 := by omega
      simp [h, hk, h2]
    · have h2 : (k + 1) % 2 = 0 := by omega
      simp [h, hk, h2]
    · have h2 : (k + 1) % 2 = 1 := by omega
      simp [h, hk, h2]
    · have h2 : (k + 1) % 2 = 0 := by omega
      simp [h, hk, h2]

/-- C11: take `fgOnlyMode = m` (off `0` or on `1`), a command that the parent
runs in the foreground, and `k` deliveries of SIGTSTP during the wait, while
`runningFGPid` is the pid of the child. Each delivery writes nothing and flips
`fgOnlyMode`. After the call `runningFGPid` is `-1`, `fgOnlyMode` is `m` for
even `k` and the other value for odd `k`, and the events are the blocking
`waitpid`, the SIGINT report if any, and then what `printIfChangeFGMode`
prints: nothing for even `k`, for odd `k` the single line "Entering ..." when
`m` was off and "Exiting ..." when it was on. That line followed by the prompt
": " is what the handler writes when the signal arrives with no foreground child. -/
theorem mode_change_message_deferred (W : WaitMacros) (os : ChildOS) (sh : Shell)
    (args : List (Option String)) (maxArgs lastExitStatus spawnPid waitStatus : Int) (k : Nat)
    (hm : sh.fgOnlyMode = 0 ∨ sh.fgOnlyMode = 1)
    (hfg : (checkForBackground args maxArgs).1 = 0 ∨ sh.fgOnlyMode ≠ 0)
    (hpid : 0 < spawnPid) :
    (∀ s : Shell, s.runningFGPid ≠ -1 →
      (catchSIGTSTP s).2 = [] ∧
      (catchSIGTSTP s).1.fgOnlyMode = (if s.fgOnlyMode = 0 then 1 else 0)) ∧
    (deliverSIGTSTP k { sh with runningFGPid := spawnPid }).2 = [] ∧
    (runNonStandard W os sh args maxArgs lastExitStatus spawnPid waitStatus k).shell.runningFGPid
      = -1 ∧
    (runNonStandard W os sh args maxArgs lastExitStatus spawnPid waitStatus k).shell.fgOnlyMode
      = (if k % 2 = 0 then sh.fgOnlyMode else 1 - sh.fgOnlyMode) ∧
    (runNonStandard W os sh args maxArgs lastExitStatus spawnPid waitStatus k).trace
      = Event.waitpid spawnPid 0 :: printIfSIGINT W waitStatus ++
          (if k % 2 = 0 then [] else [Event.stdout (modeChangeLine sh.fgOnlyMode)]) ∧
    printIfChangeFGMode
        (runNonStandard W os sh args maxArgs lastExitStatus spawnPid waitStatus k).shell
        sh.fgOnlyMode
      = (if k % 2 = 0 then [] else [Event.stdout (modeChangeLine sh.fgOnlyMode)]) ∧
    (catchSIGTSTP { sh with runningFGPid := -1 }).2
      = [Event.stdout (modeChangeLine sh.fgOnlyMode ++ ": ")] := by
  have h1 : spawnPid ≠ -1 := by omega
  have h0 : spawnPid ≠ 0 := by omega
  have hbranch : ¬ ((checkForBackground args maxArgs).1 ≠ 0 ∧ sh.fgOnlyMode = 0) := by
    rintro ⟨hb, hoff⟩
    rcases hfg with h | h
    · exact hb h
    · exact h hoff
  have hdur := deliverSIGTSTP_foreground k { sh with runningFGPid := spawnPid } h1 hm
  have hrun : runNonStandard W os sh args maxArgs lastExitStatus spawnPid waitStatus k
      = { shell := { backgroundPIDs := sh.backgroundPIDs,
                     fgOnlyMode := (if k % 2 = 0 then sh.fgOnlyMode else 1 - sh.fgOnlyMode),
                     runningFGPid := -1 },
          args := (checkForBackground args maxArgs).2,
          lastExitStatus := waitStatus,
          trace := Event.waitpid spawnPid 0 :: [] ++ printIfSIGINT W waitStatus ++
            printIfChangeFGMode
              { backgroundPIDs := sh.backgroundPIDs,
                fgOnlyMode := (if k % 2 = 0 then sh.fgOnlyMode else 1 - sh.fgOnlyMode),
                runningFGPid := -1 } sh.fgOnlyMode,
          flow := Flow.returned } := by
    simp only [runNonStandard, h1, h0, hbranch, if_false, hdur]
  have hprint : printIfChangeFGMode
      { backgroundPIDs := sh.backgroundPIDs,
        fgOnlyMode := (if k % 2 = 0 then sh.fgOnlyMode else 1 - sh.fgOnlyMode),
        runningFGPid := -1 } sh.fgOnlyMode
      = (if k % 2 = 0 then [] else [Event.stdout (modeChangeLine sh.fgOnlyMode)]) := by
    rcases Nat.mod_two_eq_zero_or_one k with hk | hk <;> rcases hm with h | h <;>
      simp [printIfChangeFGMode, modeChangeLine, hk, h]
  refine ⟨?_, ?_, ?_, ?_, ?_, ?_, ?_⟩
  · intro s hs
    rw [catchSIGTSTP_foreground s hs]
    exact ⟨rfl, rfl⟩
  · rw [hdur]
  · rw [hrun]
  · rw [hrun]
  · rw [hrun]
    simp only [hprint, List.append_nil, List.cons_append, List.nil_append]
  · rw [hrun]
    exact hprint
  · rcases hm with h | h
    · simp only [catchSIGTSTP, h, modeChangeLine]
      decide
    · simp only [catchSIGTSTP, h, modeChangeLine]
      decide

/-- C11 at `sleep 5` started with the mode off and three SIGTSTP deliveries
during the wait: the mode is on afterwards and the one deferred line is the
entering line. -/
theorem mode_change_message_deferred_witness :
    (runNonStandard linuxWait ⟨fun _ => 3, fun _ => 4, fun _ _ => 0, fun _ _ => true⟩
        ⟨⟨List.replicate 50 0, 0⟩, 0, -1⟩ (mkArgs ["sleep", "5"] []) 2 (-1) 1234 0 3).trace
      = [Event.waitpid 1234 0,
         Event.stdout "Entering foreground-only mode (& is now ignored)\n"] :=
  (mode_change_message_deferred linuxWait
    ⟨fun _ => 3, fun _ => 4, fun _ _ => 0, fun _ _ => true⟩
    ⟨⟨List.replicate 50 0, 0⟩, 0, -1⟩ (mkArgs ["sleep", "5"] []) 2 (-1) 1234 0 3
    (by decide) (Or.inl (by decide)) (by decide)).2.2.2.2.1.trans (by decide)

end BasicShell
